import Mathlib

/-!
Shallow embedding of the computational kernel of the `ecom_data_analysis`
repository (notebooks `03_customer_segmentation` and `04_sales_forecasting`):
daily-sales series construction, moving-average smoothing, forecast
alignment, error metrics, train/test split, and RFM quantile scoring.
Dates are modelled as natural numbers (day counts), prices as rationals.
-/

/-- A cleaned transaction record `{order_id, order_date, customer_id, price,
quantity}`; `order_date` counts days since an arbitrary epoch. -/
structure Transaction where
  order_id : Nat
  order_date : Nat
  customer_id : Nat
  price : ℚ
  quantity : Nat
deriving DecidableEq

/-- The list of order dates of a transaction set (`df['order_date']`). -/
def txDates (txs : List Transaction) : List Nat :=
  txs.map (fun t => t.order_date)

/-- Minimum of a list of days (`.index.min()`); 0 on empty input. -/
def minD : List Nat → Nat
  | [] => 0
  | d :: ds => ds.foldl min d

/-- Maximum of a list of days (`.index.max()` / `.max()`); 0 on empty input. -/
def maxD : List Nat → Nat
  | [] => 0
  | d :: ds => ds.foldl max d

/-- Total price of the transactions dated `d`: the value
`df.groupby('order_date')['price'].sum()` carries at a date present in the
data; a date absent from the group receives the reindex fill value 0, which
coincides with this empty sum. -/
def sumPricesOn (txs : List Transaction) (d : Nat) : ℚ :=
  ((txs.filter (fun t => t.order_date == d)).map (fun t => t.price)).sum

/-- The zero-filled daily sales series of notebook 04, cell "Data
Preparation": one `(day, total price)` pair for each calendar day in
`pd.date_range(daily_sales.index.min(), daily_sales.index.max())`, with
`fill_value=0` for days carrying no order. -/
def daily_sales (txs : List Transaction) : List (Nat × ℚ) :=
  (List.range (maxD (txDates txs) - minD (txDates txs) + 1)).map
    (fun i => (minD (txDates txs) + i, sumPricesOn txs (minD (txDates txs) + i)))

lemma foldl_min_le_init : ∀ (ds : List Nat) (a : Nat), ds.foldl min a ≤ a := by
  intro ds
  induction ds with
  | nil => intro a; simp
  | cons d ds ih =>
    intro a
    simpa using le_trans (ih (min a d)) (min_le_left a d)

lemma foldl_min_le_mem : ∀ (ds : List Nat) (a x : Nat), x ∈ ds → ds.foldl min a ≤ x := by
  intro ds
  induction ds with
  | nil => intro a x hx; cases hx
  | cons d ds ih =>
    intro a x hx
    rcases List.mem_cons.mp hx with h | h
    · subst h
      exact le_trans (foldl_min_le_init ds (min a x)) (min_le_right a x)
    · exact ih (min a d) x h

lemma init_le_foldl_max : ∀ (ds : List Nat) (a : Nat), a ≤ ds.foldl max a := by
  intro ds
  induction ds with
  | nil => intro a; simp
  | cons d ds ih =>
    intro a
    simpa using le_trans (le_max_left a d) (ih (max a d))

lemma mem_le_foldl_max : ∀ (ds : List Nat) (a x : Nat), x ∈ ds → x ≤ ds.foldl max a := by
  intro ds
  induction ds with
  | nil => intro a x hx; cases hx
  | cons d ds ih =>
    intro a x hx
    rcases List.mem_cons.mp hx with h | h
    · subst h
      exact le_trans (le_max_right a x) (init_le_foldl_max ds (max a x))
    · exact ih (max a d) x h

lemma minD_le_mem (l : List Nat) (x : Nat) (hx : x ∈ l) : minD l ≤ x := by
  cases l with
  | nil => cases hx
  | cons d ds =>
    rcases List.mem_cons.mp hx with h | h
    · subst h; exact foldl_min_le_init ds x
    · exact foldl_min_le_mem ds d x h

lemma mem_le_maxD (l : List Nat) (x : Nat) (hx : x ∈ l) : x ≤ maxD l := by
  cases l with
  | nil => cases hx
  | cons d ds =>
    rcases List.mem_cons.mp hx with h | h
    · subst h; exact init_le_foldl_max ds x
    · exact mem_le_foldl_max ds d x h

/-- C1: For a non-empty transaction set, the zero-filled daily sales series
has exactly `(max_date - min_date) + 1` entries, entry `i` carries date
`min_date + i` (so dates are contiguous, one per calendar day, covering
every order date), and a day with no order carries aggregate value 0. -/
theorem C1_daily_series_complete (txs : List Transaction) (h : txs ≠ []) :
    (daily_sales txs).length = maxD (txDates txs) - minD (txDates txs) + 1 ∧
    (∀ i, i < (daily_sales txs).length →
      ((daily_sales txs).getD i (0, 0)).1 = minD (txDates txs) + i) ∧
    (∀ t, t ∈ txs → minD (txDates txs) ≤ t.order_date ∧
      t.order_date ≤ maxD (txDates txs)) ∧
    (∀ i, i < (daily_sales txs).length →
      (∀ t, t ∈ txs → t.order_date ≠ minD (txDates txs) + i) →
      ((daily_sales txs).getD i (0, 0)).2 = 0) := by
  have hlen : (daily_sales txs).length
      = maxD (txDates txs) - minD (txDates txs) + 1 := by
    simp [daily_sales]
  refine ⟨hlen, ?_, ?_, ?_⟩
  · intro i hi
    have hi2 : i < maxD (txDates txs) - minD (txDates txs) + 1 := hlen ▸ hi
    simp [daily_sales, List.getD_eq_getElem _ _ hi, hi2]
  · intro t ht
    have hmem : t.order_date ∈ txDates txs := List.mem_map_of_mem _ ht
    exact ⟨minD_le_mem _ _ hmem, mem_le_maxD _ _ hmem⟩
  · intro i hi hno
    have hi2 : i < maxD (txDates txs) - minD (txDates txs) + 1 := hlen ▸ hi
    have hfil : txs.filter (fun t => t.order_date == minD (txDates txs) + i) = [] := by
      refine List.filter_eq_nil_iff.mpr ?_
      intro t ht
      simpa using hno t ht
    simp [daily_sales, List.getD_eq_getElem _ _ hi, hi2, sumPricesOn, hfil]

/-- Witness for C1 at a concrete two-transaction input spanning days 10–12. -/
theorem C1_daily_series_complete_witness :
    ([⟨0, 10, 1, 5, 1⟩, ⟨1, 12, 2, 7, 1⟩] : List Transaction) ≠ [] ∧
    ((daily_sales [⟨0, 10, 1, 5, 1⟩, ⟨1, 12, 2, 7, 1⟩]).length
        = maxD (txDates [⟨0, 10, 1, 5, 1⟩, ⟨1, 12, 2, 7, 1⟩])
          - minD (txDates [⟨0, 10, 1, 5, 1⟩, ⟨1, 12, 2, 7, 1⟩]) + 1 ∧
      (∀ i, i < (daily_sales [⟨0, 10, 1, 5, 1⟩, ⟨1, 12, 2, 7, 1⟩]).length →
        ((daily_sales [⟨0, 10, 1, 5, 1⟩, ⟨1, 12, 2, 7, 1⟩]).getD i (0, 0)).1
          = minD (txDates [⟨0, 10, 1, 5, 1⟩, ⟨1, 12, 2, 7, 1⟩]) + i) ∧
      (∀ t, t ∈ ([⟨0, 10, 1, 5, 1⟩, ⟨1, 12, 2, 7, 1⟩] : List Transaction) →
        minD (txDates [⟨0, 10, 1, 5, 1⟩, ⟨1, 12, 2, 7, 1⟩]) ≤ t.order_date ∧
        t.order_date ≤ maxD (txDates [⟨0, 10, 1, 5, 1⟩, ⟨1, 12, 2, 7, 1⟩])) ∧
      (∀ i, i < (daily_sales [⟨0, 10, 1, 5, 1⟩, ⟨1, 12, 2, 7, 1⟩]).length →
        (∀ t, t ∈ ([⟨0, 10, 1, 5, 1⟩, ⟨1, 12, 2, 7, 1⟩] : List Transaction) →
          t.order_date ≠ minD (txDates [⟨0, 10, 1, 5, 1⟩, ⟨1, 12, 2, 7, 1⟩]) + i) →
        ((daily_sales [⟨0, 10, 1, 5, 1⟩, ⟨1, 12, 2, 7, 1⟩]).getD i (0, 0)).2 = 0)) :=
  ⟨by decide, C1_daily_series_complete _ (by decide)⟩

/-- The moving-average smoother of notebook 04
(`calculate_moving_average(data, window) = data.rolling(window=window).mean()`):
entry `t` is the mean of the `window` input values at positions
`t - window + 1 .. t`, and `none` (pandas `NaN`) while fewer than `window`
values are available. -/
def calculate_moving_average (data : List ℚ) (window : Nat) : List (Option ℚ) :=
  (List.range data.length).map (fun t =>
    if window ≤ t + 1 then
      some ((((data.drop (t + 1 - window)).take window).sum) / window)
    else
      none)

/-- C2: The moving-average output has the input's length, its first
`window - 1` entries are undefined, and for `t ≥ window - 1` entry `t` is the
arithmetic mean of the `window` input values at positions
`t - window + 1 .. t` (the displayed slice really has `window` elements). -/
theorem C2_moving_average_shape (data : List ℚ) (window : Nat) (hw : 1 ≤ window) :
    (calculate_moving_average data window).length = data.length ∧
    (∀ t, t < data.length → t + 1 < window →
      (calculate_moving_average data window).getD t none = none) ∧
    (∀ t, t < data.length → window ≤ t + 1 →
      ((data.drop (t + 1 - window)).take window).length = window ∧
      (calculate_moving_average data window).getD t none
        = some ((((data.drop (t + 1 - window)).take window).sum) / window)) := by
  have hlen : (calculate_moving_average data window).length = data.length := by
    simp [calculate_moving_average]
  refine ⟨hlen, ?_, ?_⟩
  · intro t ht hlt
    have ht2 : t < (calculate_moving_average data window).length := hlen ▸ ht
    have : ¬ window ≤ t + 1 := by omega
    simp [calculate_moving_average, List.getD_eq_getElem _ _ ht2, ht, this]
  · intro t ht hge
    have ht2 : t < (calculate_moving_average data window).length := hlen ▸ ht
    constructor
    · have hdrop : (data.drop (t + 1 - window)).length = data.length - (t + 1 - window) := by
        simp
      rw [List.length_take, hdrop]
      omega
    · simp [calculate_moving_average, List.getD_eq_getElem _ _ ht2, ht, hge]

/-- Witness for C2 at `data = [1, 2, 3, 4]`, `window = 2`. -/
theorem C2_moving_average_shape_witness :
    (1 ≤ 2) ∧
    ((calculate_moving_average [(1 : ℚ), 2, 3, 4] 2).length
        = ([(1 : ℚ), 2, 3, 4] : List ℚ).length ∧
      (∀ t, t < ([(1 : ℚ), 2, 3, 4] : List ℚ).length → t + 1 < 2 →
        (calculate_moving_average [(1 : ℚ), 2, 3, 4] 2).getD t none = none) ∧
      (∀ t, t < ([(1 : ℚ), 2, 3, 4] : List ℚ).length → 2 ≤ t + 1 →
        ((([(1 : ℚ), 2, 3, 4] : List ℚ).drop (t + 1 - 2)).take 2).length = 2 ∧
        (calculate_moving_average [(1 : ℚ), 2, 3, 4] 2).getD t none
          = some ((((([(1 : ℚ), 2, 3, 4] : List ℚ).drop (t + 1 - 2)).take 2).sum) / 2))) :=
  ⟨by decide, C2_moving_average_shape [(1 : ℚ), 2, 3, 4] 2 (by decide)⟩

/-- Modelled from the spec: the fitted statsmodels state (`hw_results`,
`sarima_results`) is opaque library data; the spec's contract for both
model-based forecasters is that, once fit on the training data, they can
produce a point forecast for each future step.  Only that point-forecast
function is modelled. -/
structure FittedForecaster where
  predictAhead : Nat → ℚ

/-- Forecast of horizon `h` aligned to days after the training end, as in
notebook 04: `results.forecast(h)` paired with
`pd.date_range(start=last_date + 1 day, periods=h)`. -/
def forecastAligned (m : FittedForecaster) (lastTrainDate : Nat) (h : Nat) :
    List (Nat × ℚ) :=
  (List.range h).map (fun i => (lastTrainDate + 1 + i, m.predictAhead i))

/-- C3 counterexample: the moving-average strategy does not obey the uniform
"h predictions after the training end" contract.  On the 10-point training
series `[1, ..., 10]` with the notebook's window 7 and forecast horizon 3, its
output has 10 entries (one per training position), not 3. -/
theorem C3_uniform_contract_counterexample :
    (calculate_moving_average [(1 : ℚ), 2, 3, 4, 5, 6, 7, 8, 9, 10] 7).length = 10 ∧
    ¬ (calculate_moving_average [(1 : ℚ), 2, 3, 4, 5, 6, 7, 8, 9, 10] 7).length = 3 := by
  constructor
  · simp [calculate_moving_average]
  · simp [calculate_moving_average]

/-- C3 (amended): the two model-based strategies (Holt-Winters, SARIMA)
return exactly `h` predictions aligned to the `h` consecutive days following
the training end, while the moving-average strategy instead returns a series
of the same length as its input, aligned to the input positions. -/
theorem C3_forecast_alignment (m : FittedForecaster) (lastTrainDate h : Nat)
    (data : List ℚ) (window : Nat) :
    (forecastAligned m lastTrainDate h).length = h ∧
    (∀ i, i < h →
      ((forecastAligned m lastTrainDate h).getD i (0, 0)).1 = lastTrainDate + 1 + i) ∧
    (calculate_moving_average data window).length = data.length := by
  have hlen : (forecastAligned m lastTrainDate h).length = h := by
    simp [forecastAligned]
  refine ⟨hlen, ?_, ?_⟩
  · intro i hi
    have hi2 : i < (forecastAligned m lastTrainDate h).length := by
      rw [hlen]; exact hi
    simp [forecastAligned, List.getD_eq_getElem _ _ hi2, hi]
  · simp [calculate_moving_average]

/-- Absolute errors `|actual - predicted|` of two aligned series. -/
def absErrs (actual predicted : List ℚ) : List ℚ :=
  List.zipWith (fun a p => |a - p|) actual predicted

/-- Mean absolute error (`mean_absolute_error(actual, predicted)`). -/
def maeQ (actual predicted : List ℚ) : ℚ :=
  (absErrs actual predicted).sum / actual.length

/-- Mean squared error (`mean_squared_error(actual, predicted)`); the
notebook's RMSE is its square root, carried here as the square since the
root is irrational in general (theorems state RMSE facts via `Real.sqrt`). -/
def mseQ (actual predicted : List ℚ) : ℚ :=
  (List.zipWith (fun a p => (a - p) ^ 2) actual predicted).sum / actual.length

/-- A value on the MAPE computation path as numpy produces it: either a
finite number, or the non-finite float (`inf`, or `nan` for `0/0`) that
floating division by a zero actual yields.  Numpy emits at most a
RuntimeWarning and hands the non-finite value on as an ordinary result; no
exception is raised anywhere on this path. -/
inductive Mape where
  | fin : ℚ → Mape
  | nonfinite : Mape
deriving DecidableEq

/-- One MAPE term `np.abs((a - p) / a)`: finite for a nonzero actual,
the non-finite division-by-zero float otherwise. -/
def mapeTerm (a p : ℚ) : Mape :=
  if a = 0 then Mape.nonfinite else Mape.fin |(a - p) / a|

/-- The per-point MAPE terms `np.abs((actual - predicted) / actual)`. -/
def mapeTerms (actual predicted : List ℚ) : List Mape :=
  List.zipWith (fun a p => mapeTerm a p) actual predicted

/-- Sum of the MAPE terms: any non-finite summand makes the float sum
non-finite, as with numpy `inf`/`nan` arithmetic; never an error. -/
def mapeSum : List Mape → Mape
  | [] => Mape.fin 0
  | Mape.nonfinite :: _ => Mape.nonfinite
  | Mape.fin x :: rest =>
    match mapeSum rest with
    | Mape.fin s => Mape.fin (x + s)
    | Mape.nonfinite => Mape.nonfinite

/-- Mean absolute percentage error
(`np.mean(np.abs((actual - predicted) / actual)) * 100`): a non-finite
float value — not an exception — when any actual value is zero. -/
def mapeQ (actual predicted : List ℚ) : Mape :=
  match mapeSum (mapeTerms actual predicted) with
  | Mape.fin s => Mape.fin (100 * (s / actual.length))
  | Mape.nonfinite => Mape.nonfinite

/-- The `calculate_metrics` routine of notebook 04: it always returns the
triple (MAE, MSE, MAPE) — RMSE is the square root of the middle component —
and in particular returns normally, with a non-finite MAPE component, when
an actual value is zero. -/
def calculate_metrics (actual predicted : List ℚ) : ℚ × ℚ × Mape :=
  (maeQ actual predicted, mseQ actual predicted, mapeQ actual predicted)

lemma mapeSum_nonfinite_iff :
    ∀ (l : List Mape), mapeSum l = Mape.nonfinite ↔ Mape.nonfinite ∈ l := by
  intro l
  induction l with
  | nil => simp [mapeSum]
  | cons o rest ih =>
    cases o with
    | nonfinite => simp [mapeSum]
    | fin x =>
      simp only [mapeSum, List.mem_cons]
      constructor
      · intro hsum
        rcases h2 : mapeSum rest with s | _
        · rw [h2] at hsum
          simp at hsum
        · exact Or.inr (ih.mp h2)
      · intro hmem
        rcases hmem with h2 | h2
        · cases h2
        · rw [ih.mpr h2]

lemma mapeTerms_nonfinite_iff :
    ∀ (actual predicted : List ℚ), actual.length = predicted.length →
      (Mape.nonfinite ∈ mapeTerms actual predicted ↔ 0 ∈ actual) := by
  intro actual
  induction actual with
  | nil => intro p hlen; simp [mapeTerms]
  | cons a rest ih =>
    intro p hlen
    cases p with
    | nil => simp at hlen
    | cons b q =>
      have hlen2 : rest.length = q.length := by simpa using hlen
      simp only [mapeTerms, List.zipWith_cons_cons, List.mem_cons]
      constructor
      · intro hmem
        rcases hmem with h2 | h2
        · left
          by_contra hne
          have hne2 : ¬ (a = 0) := fun hh => hne hh.symm
          rw [mapeTerm, if_neg hne2] at h2
          cases h2
        · exact Or.inr ((ih q hlen2).mp h2)
      · intro hmem
        rcases hmem with h2 | h2
        · left
          rw [mapeTerm, if_pos h2.symm]
        · exact Or.inr ((ih q hlen2).mpr h2)

lemma mapeSum_fin_sum :
    ∀ (actual predicted : List ℚ), 0 ∉ actual →
      mapeSum (mapeTerms actual predicted)
        = Mape.fin ((List.zipWith (fun a p => |(a - p) / a|) actual predicted).sum) := by
  intro actual
  induction actual with
  | nil => intro p h0; simp [mapeTerms, mapeSum]
  | cons a rest ih =>
    intro p h0
    cases p with
    | nil => simp [mapeTerms, mapeSum]
    | cons b q =>
      have ha : ¬ (a = 0) := by
        intro hh
        exact h0 (by rw [hh]; exact List.mem_cons_self 0 rest)
      have h0r : 0 ∉ rest := fun hm => h0 (List.mem_cons_of_mem a hm)
      show mapeSum (mapeTerm a b :: mapeTerms rest q) = _
      rw [mapeTerm, if_neg ha]
      show (match mapeSum (mapeTerms rest q) with
        | Mape.fin s => Mape.fin (|(a - b) / a| + s)
        | Mape.nonfinite => Mape.nonfinite) = _
      rw [ih q h0r]
      simp

/-- C4 counterexample: with a zero actual value present (`actual = [0, 1]`,
`predicted = [2, 3]`) the metric computation does not halt: it returns the
ordinary triple `(2, 4, non-finite)` — the division by zero surfaces as a
non-finite float MAPE value, not as an uncaught failure. -/
theorem C4_metrics_counterexample :
    calculate_metrics [(0 : ℚ), 1] [(2 : ℚ), 3] = (2, 4, Mape.nonfinite) ∧
    (0 : ℚ) ∈ ([(0 : ℚ), 1] : List ℚ) := by
  refine ⟨?_, by simp⟩
  have hmae : maeQ [(0 : ℚ), 1] [(2 : ℚ), 3] = 2 := by
    norm_num [maeQ, absErrs]
  have hmse : mseQ [(0 : ℚ), 1] [(2 : ℚ), 3] = 4 := by
    norm_num [mseQ]
  have hterm : mapeTerm (0 : ℚ) 2 = Mape.nonfinite := by
    rw [mapeTerm, if_pos rfl]
  have hmape : mapeQ [(0 : ℚ), 1] [(2 : ℚ), 3] = Mape.nonfinite := by
    have hterms : mapeTerms [(0 : ℚ), 1] [(2 : ℚ), 3]
        = [Mape.nonfinite, mapeTerm 1 3] := by
      simp [mapeTerms, hterm]
    rw [mapeQ, hterms]
    rfl
  rw [calculate_metrics, hmae, hmse, hmape]

/-- C4 (amended): for aligned equal-length series the metric computation
always returns the triple (MAE, squared RMSE, MAPE) and never fails; the
MAPE component is the non-finite division-by-zero float exactly when some
actual value is zero, and otherwise the finite mean absolute percentage. -/
theorem C4_metrics_mape_zero (actual predicted : List ℚ)
    (hlen : actual.length = predicted.length) :
    calculate_metrics actual predicted
      = (maeQ actual predicted, mseQ actual predicted, mapeQ actual predicted) ∧
    (mapeQ actual predicted = Mape.nonfinite ↔ 0 ∈ actual) ∧
    (0 ∉ actual → mapeQ actual predicted
      = Mape.fin (100 * ((List.zipWith (fun a p => |(a - p) / a|) actual predicted).sum
          / actual.length))) := by
  refine ⟨rfl, ?_, ?_⟩
  · constructor
    · intro h2
      rw [mapeQ] at h2
      rcases h3 : mapeSum (mapeTerms actual predicted) with s | _
      · rw [h3] at h2
        simp at h2
      · exact (mapeTerms_nonfinite_iff actual predicted hlen).mp
          ((mapeSum_nonfinite_iff _).mp h3)
    · intro h2
      rw [mapeQ,
        (mapeSum_nonfinite_iff _).mpr
          ((mapeTerms_nonfinite_iff actual predicted hlen).mpr h2)]
  · intro h0
    rw [mapeQ, mapeSum_fin_sum actual predicted h0]

/-- Witness for the amended C4 statement at `actual = [1, 2]`,
`predicted = [1, 1]`. -/
theorem C4_metrics_mape_zero_witness :
    (([(1 : ℚ), 2] : List ℚ).length = ([(1 : ℚ), 1] : List ℚ).length) ∧
    (calculate_metrics [(1 : ℚ), 2] [(1 : ℚ), 1]
        = (maeQ [(1 : ℚ), 2] [(1 : ℚ), 1], mseQ [(1 : ℚ), 2] [(1 : ℚ), 1],
            mapeQ [(1 : ℚ), 2] [(1 : ℚ), 1]) ∧
      (mapeQ [(1 : ℚ), 2] [(1 : ℚ), 1] = Mape.nonfinite ↔
        (0 : ℚ) ∈ ([(1 : ℚ), 2] : List ℚ)) ∧
      ((0 : ℚ) ∉ ([(1 : ℚ), 2] : List ℚ) → mapeQ [(1 : ℚ), 2] [(1 : ℚ), 1]
        = Mape.fin (100 * ((List.zipWith (fun a p => |(a - p) / a|)
            [(1 : ℚ), 2] [(1 : ℚ), 1]).sum / ([(1 : ℚ), 2] : List ℚ).length)))) :=
  ⟨by decide, C4_metrics_mape_zero [(1 : ℚ), 2] [(1 : ℚ), 1] (by decide)⟩

lemma zipWith_sq_eq_map_sq :
    ∀ (a p : List ℚ), List.zipWith (fun x y => (x - y) ^ 2) a p
      = (List.zipWith (fun x y => |x - y|) a p).map (fun z => z ^ 2) := by
  intro a
  induction a with
  | nil => intro p; simp
  | cons x t ih =>
    intro p
    cases p with
    | nil => simp
    | cons y q => simp [ih q, sq_abs]

lemma absErrs_nonneg :
    ∀ (a p : List ℚ) (z : ℚ), z ∈ absErrs a p → 0 ≤ z := by
  intro a
  induction a with
  | nil => intro p z hz; simp [absErrs] at hz
  | cons x t ih =>
    intro p z hz
    cases p with
    | nil => simp [absErrs] at hz
    | cons y q =>
      rcases List.mem_cons.mp hz with h2 | h2
      · rw [h2]; exact abs_nonneg _
      · exact ih q z h2

lemma sum_sq_shift (m : ℚ) : ∀ (l : List ℚ),
    (l.map (fun x => (x - m) ^ 2)).sum
      = (l.map (fun x => x ^ 2)).sum - 2 * m * l.sum + l.length * m ^ 2 := by
  intro l
  induction l with
  | nil => simp
  | cons x t ih =>
    simp only [List.map_cons, List.sum_cons, List.length_cons, ih]
    push_cast
    ring

lemma sum_sq_nonneg2 (m : ℚ) (l : List ℚ) :
    0 ≤ (l.map (fun x => (x - m) ^ 2)).sum := by
  refine List.sum_nonneg ?_
  intro z hz
  rcases List.mem_map.mp hz with ⟨x, _, hx⟩
  rw [← hx]
  exact sq_nonneg _

lemma sum_sq_eq_zero_iff (m : ℚ) : ∀ (l : List ℚ),
    ((l.map (fun x => (x - m) ^ 2)).sum = 0 ↔ ∀ x ∈ l, x = m) := by
  intro l
  induction l with
  | nil => simp
  | cons x t ih =>
    simp only [List.map_cons, List.sum_cons, List.mem_cons]
    constructor
    · intro hsum
      have hx : (x - m) ^ 2 = 0 ∧ (t.map (fun x => (x - m) ^ 2)).sum = 0 := by
        constructor <;> nlinarith [sq_nonneg (x - m), sum_sq_nonneg2 m t]
      have hxm : x = m := by
        have := pow_eq_zero_iff (n := 2) (by norm_num) |>.mp hx.1
        linarith [this]
      intro z hz
      rcases hz with h2 | h2
      · rw [h2]; exact hxm
      · exact (ih.mp hx.2) z h2
    · intro hall
      have hxm : x = m := hall x (Or.inl rfl)
      have ht : ∀ z ∈ t, z = m := fun z hz => hall z (Or.inr hz)
      rw [ih.mpr ht, hxm]
      ring

lemma all_eq_sum (c : ℚ) : ∀ (l : List ℚ), (∀ x ∈ l, x = c) →
    l.sum = l.length * c := by
  intro l
  induction l with
  | nil => intro hall; simp
  | cons x t ih =>
    intro hall
    have hx : x = c := hall x (List.mem_cons_self x t)
    have ht : t.sum = t.length * c := ih (fun z hz => hall z (List.mem_cons_of_mem x hz))
    simp only [List.sum_cons, List.length_cons, hx, ht]
    push_cast
    ring

/-- C5: For aligned series of equal positive length, MAE is non-negative,
RMSE (the square root of the mean squared error) is non-negative,
RMSE is at least MAE, and the two agree exactly when all absolute errors are
equal in magnitude. -/
theorem C5_rmse_ge_mae (actual predicted : List ℚ)
    (hlen : actual.length = predicted.length) (hpos : 0 < actual.length) :
    0 ≤ maeQ actual predicted ∧
    (0 : ℝ) ≤ Real.sqrt ((mseQ actual predicted : ℝ)) ∧
    ((maeQ actual predicted : ℝ)) ≤ Real.sqrt ((mseQ actual predicted : ℝ)) ∧
    (Real.sqrt ((mseQ actual predicted : ℝ)) = ((maeQ actual predicted : ℝ)) ↔
      ∀ e1 ∈ absErrs actual predicted, ∀ e2 ∈ absErrs actual predicted, e1 = e2) := by
  have hlenl : (absErrs actual predicted).length = actual.length := by
    simp [absErrs, hlen]
  have hn : (0 : ℚ) < (actual.length : ℚ) := by exact_mod_cast hpos
  have hsumM : (absErrs actual predicted).sum
      = (actual.length : ℚ) * maeQ actual predicted := by
    rw [maeQ]
    field_simp
  have hshift : ((absErrs actual predicted).map
        (fun x => (x - maeQ actual predicted) ^ 2)).sum
      = ((absErrs actual predicted).map (fun x => x ^ 2)).sum
        - (actual.length : ℚ) * (maeQ actual predicted) ^ 2 := by
    rw [sum_sq_shift, hsumM, hlenl]
    ring
  have hmse_repr : mseQ actual predicted
      = ((absErrs actual predicted).map (fun x => x ^ 2)).sum / (actual.length : ℚ) := by
    rw [mseQ, zipWith_sq_eq_map_sq]
    rfl
  have key : mseQ actual predicted - (maeQ actual predicted) ^ 2
      = ((absErrs actual predicted).map
          (fun x => (x - maeQ actual predicted) ^ 2)).sum / (actual.length : ℚ) := by
    rw [hmse_repr, hshift]
    field_simp
  have hge : (maeQ actual predicted) ^ 2 ≤ mseQ actual predicted := by
    have h1 : 0 ≤ ((absErrs actual predicted).map
        (fun x => (x - maeQ actual predicted) ^ 2)).sum / (actual.length : ℚ) :=
      div_nonneg (sum_sq_nonneg2 _ _) (le_of_lt hn)
    linarith [key]
  have hmae0 : 0 ≤ maeQ actual predicted :=
    div_nonneg (List.sum_nonneg (fun z hz => absErrs_nonneg actual predicted z hz))
      (le_of_lt hn)
  have hmae0R : (0 : ℝ) ≤ ((maeQ actual predicted : ℝ)) := by exact_mod_cast hmae0
  have hmse0 : 0 ≤ mseQ actual predicted := le_trans (sq_nonneg _) hge
  have hmse0R : (0 : ℝ) ≤ ((mseQ actual predicted : ℝ)) := by exact_mod_cast hmse0
  refine ⟨hmae0, Real.sqrt_nonneg _, ?_, ?_⟩
  · have hgeR : ((maeQ actual predicted : ℝ)) ^ 2 ≤ ((mseQ actual predicted : ℝ)) := by
      exact_mod_cast hge
    calc ((maeQ actual predicted : ℝ))
        = Real.sqrt (((maeQ actual predicted : ℝ)) ^ 2) := (Real.sqrt_sq hmae0R).symm
      _ ≤ Real.sqrt ((mseQ actual predicted : ℝ)) := Real.sqrt_le_sqrt hgeR
  · constructor
    · intro hEq
      have h1 : ((mseQ actual predicted : ℝ)) = ((maeQ actual predicted : ℝ)) ^ 2 := by
        rw [← Real.sq_sqrt hmse0R, hEq]
      have h2 : mseQ actual predicted = (maeQ actual predicted) ^ 2 := by
        exact_mod_cast h1
      have h3 : ((absErrs actual predicted).map
          (fun x => (x - maeQ actual predicted) ^ 2)).sum = 0 := by
        have h4 := key
        rw [h2] at h4
        have h5 : ((absErrs actual predicted).map
            (fun x => (x - maeQ actual predicted) ^ 2)).sum / (actual.length : ℚ) = 0 := by
          linarith
        rcases div_eq_zero_iff.mp h5 with h6 | h6
        · exact h6
        · exact absurd h6 (ne_of_gt hn)
      have hall := (sum_sq_eq_zero_iff (maeQ actual predicted) _).mp h3
      intro e1 he1 e2 he2
      rw [hall e1 he1, hall e2 he2]
    · intro hall
      have hex : ∃ e, e ∈ absErrs actual predicted := by
        refine List.exists_mem_of_ne_nil _ ?_
        intro hnil
        rw [hnil] at hlenl
        simp at hlenl
        omega
      rcases hex with ⟨e, he⟩
      have hall2 : ∀ x ∈ absErrs actual predicted, x = e := fun x hx => hall x hx e he
      have hsum2 : (absErrs actual predicted).sum
          = ((absErrs actual predicted).length : ℚ) * e := all_eq_sum e _ hall2
      have hMe : maeQ actual predicted = e := by
        rw [maeQ, hsum2, hlenl]
        field_simp
      have hzero : ((absErrs actual predicted).map
          (fun x => (x - maeQ actual predicted) ^ 2)).sum = 0 :=
        (sum_sq_eq_zero_iff _ _).mpr (fun x hx => (hall2 x hx).trans hMe.symm)
      have h2 : mseQ actual predicted = (maeQ actual predicted) ^ 2 := by
        have h4 := key
        rw [hzero] at h4
        have : mseQ actual predicted - (maeQ actual predicted) ^ 2 = 0 := by
          rw [h4]
          simp
        linarith
      have h2R : ((mseQ actual predicted : ℝ)) = ((maeQ actual predicted : ℝ)) ^ 2 := by
        exact_mod_cast h2
      rw [h2R, Real.sqrt_sq hmae0R]

/-- Witness for C5 at `actual = [3, 1]`, `predicted = [1, 3]`. -/
theorem C5_rmse_ge_mae_witness :
    (([(3 : ℚ), 1] : List ℚ).length = ([(1 : ℚ), 3] : List ℚ).length) ∧
    (0 < ([(3 : ℚ), 1] : List ℚ).length) ∧
    (0 ≤ maeQ [(3 : ℚ), 1] [(1 : ℚ), 3] ∧
      (0 : ℝ) ≤ Real.sqrt ((mseQ [(3 : ℚ), 1] [(1 : ℚ), 3] : ℝ)) ∧
      ((maeQ [(3 : ℚ), 1] [(1 : ℚ), 3] : ℝ)) ≤ Real.sqrt ((mseQ [(3 : ℚ), 1] [(1 : ℚ), 3] : ℝ)) ∧
      (Real.sqrt ((mseQ [(3 : ℚ), 1] [(1 : ℚ), 3] : ℝ)) = ((maeQ [(3 : ℚ), 1] [(1 : ℚ), 3] : ℝ)) ↔
        ∀ e1 ∈ absErrs [(3 : ℚ), 1] [(1 : ℚ), 3],
          ∀ e2 ∈ absErrs [(3 : ℚ), 1] [(1 : ℚ), 3], e1 = e2)) :=
  ⟨by decide, by decide, C5_rmse_ge_mae [(3 : ℚ), 1] [(1 : ℚ), 3] (by decide) (by decide)⟩

/-- The train/test cut of notebook 04: `train_size = int(len(daily_sales) * 0.8)`;
`int` truncation of `0.8 * n` is the floor `4 * n / 5` in exact arithmetic. -/
def train_size (n : Nat) : Nat :=
  4 * n / 5

/-- The split itself: `train_data = daily_sales[:train_size]`,
`test_data = daily_sales[train_size:]`. -/
def train_test_split (daily : List (Nat × ℚ)) : List (Nat × ℚ) × List (Nat × ℚ) :=
  (daily.take (train_size daily.length), daily.drop (train_size daily.length))

/-- C9: The split takes the first `floor(0.8 * n)` days as training and the
remaining `n - floor(0.8 * n)` as test; the two parts are contiguous pieces
that reassemble to the full series, and a 100-day series yields exactly
80 training and 20 test days. -/
theorem C9_train_test_split (daily : List (Nat × ℚ)) :
    train_size daily.length = Nat.floor ((4 / 5 : ℚ) * daily.length) ∧
    (train_test_split daily).1.length = train_size daily.length ∧
    (train_test_split daily).2.length = daily.length - train_size daily.length ∧
    (train_test_split daily).1 ++ (train_test_split daily).2 = daily ∧
    train_size 100 = 80 ∧ 100 - train_size 100 = 20 := by
  refine ⟨?_, ?_, ?_, ?_, by decide, by decide⟩
  · have hrw : (4 / 5 : ℚ) * daily.length = ((4 * daily.length : ℕ) : ℚ) / ((5 : ℕ) : ℚ) := by
      push_cast
      ring
    rw [hrw, Nat.floor_div_nat, Nat.floor_natCast]
    rfl
  · simp [train_test_split, train_size]
    omega
  · simp [train_test_split]
  · simp [train_test_split]

/-- The model-comparison table of notebook 04 (`metrics_df`): one row per
model-based forecaster, each evaluated by `calculate_metrics` against the
held-out test split `daily_sales[train_size:]`. -/
def model_metrics (daily : List ℚ) (hwPred saPred : List ℚ) :
    List (String × (ℚ × ℚ × Mape)) :=
  [("Holt-Winters", calculate_metrics (daily.drop (train_size daily.length)) hwPred),
   ("SARIMA", calculate_metrics (daily.drop (train_size daily.length)) saPred)]

/-- C10: The metrics output has exactly two rows, named Holt-Winters and
SARIMA, each carrying the error metrics of its predictions against the
held-out test split; no moving-average row exists. -/
theorem C10_metrics_table (daily hwPred saPred : List ℚ) :
    (model_metrics daily hwPred saPred).length = 2 ∧
    (model_metrics daily hwPred saPred).map Prod.fst = ["Holt-Winters", "SARIMA"] ∧
    "Moving Average" ∉ (model_metrics daily hwPred saPred).map Prod.fst ∧
    (model_metrics daily hwPred saPred).getD 0 ("", (0, 0, Mape.nonfinite))
      = ("Holt-Winters", calculate_metrics (daily.drop (train_size daily.length)) hwPred) ∧
    (model_metrics daily hwPred saPred).getD 1 ("", (0, 0, Mape.nonfinite))
      = ("SARIMA", calculate_metrics (daily.drop (train_size daily.length)) saPred) := by
  refine ⟨rfl, rfl, ?_, rfl, rfl⟩
  intro hmem
  simp [model_metrics] at hmem

/-- C8 counterexample: on two transactions three days apart (span 3 < 7) the
series-preparation step does not fail; it produces the complete zero-filled
3-day series. -/
theorem C8_short_span_counterexample :
    daily_sales [⟨0, 10, 1, 5, 1⟩, ⟨1, 12, 2, 7, 1⟩]
      = [(10, 5), (11, 0), (12, 7)] ∧
    maxD (txDates [⟨0, 10, 1, 5, 1⟩, ⟨1, 12, 2, 7, 1⟩])
      - minD (txDates [⟨0, 10, 1, 5, 1⟩, ⟨1, 12, 2, 7, 1⟩]) + 1 < 7 := by
  constructor
  · norm_num [daily_sales, txDates, minD, maxD, sumPricesOn, List.range_succ]
  · decide

/-- C8 (amended): the preparation stage itself never fails for non-empty
data: it produces the complete zero-filled daily series even when the data
spans fewer than 7 days (short-data errors arise only in the later library
decomposition/model-fit calls, outside this stage). -/
theorem C8_preparation_total (txs : List Transaction) (hne : txs ≠ [])
    (hshort : maxD (txDates txs) - minD (txDates txs) + 1 < 7) :
    0 < (daily_sales txs).length ∧
    (daily_sales txs).length = maxD (txDates txs) - minD (txDates txs) + 1 := by
  have hlen : (daily_sales txs).length
      = maxD (txDates txs) - minD (txDates txs) + 1 := by
    simp [daily_sales]
  exact ⟨by omega, hlen⟩

/-- Witness for C8's amended statement at a one-transaction input. -/
theorem C8_preparation_total_witness :
    ([⟨0, 3, 1, 2, 1⟩] : List Transaction) ≠ [] ∧
    maxD (txDates [⟨0, 3, 1, 2, 1⟩]) - minD (txDates [⟨0, 3, 1, 2, 1⟩]) + 1 < 7 ∧
    (0 < (daily_sales [⟨0, 3, 1, 2, 1⟩]).length ∧
      (daily_sales [⟨0, 3, 1, 2, 1⟩]).length
        = maxD (txDates [⟨0, 3, 1, 2, 1⟩]) - minD (txDates [⟨0, 3, 1, 2, 1⟩]) + 1) :=
  ⟨by decide, by decide, C8_preparation_total _ (by decide) (by decide)⟩

/-- The ascending sort underlying the pandas quantile computation. -/
def sortVals (values : List ℚ) : List ℚ :=
  List.insertionSort (fun a b => a ≤ b) values

/-- Linear-interpolation quantile of the sorted list `s` at probability `p`
(the numpy/pandas default): with `h = p * (len(s) - 1)`, interpolate between
the values at positions `⌊h⌋` and `⌈h⌉`. -/
def quantile (s : List ℚ) (p : ℚ) : ℚ :=
  s.getD (⌊p * ((s.length : ℚ) - 1)⌋).toNat 0
    + (p * ((s.length : ℚ) - 1) - ⌊p * ((s.length : ℚ) - 1)⌋)
      * (s.getD (⌈p * ((s.length : ℚ) - 1)⌉).toNat 0
          - s.getD (⌊p * ((s.length : ℚ) - 1)⌋).toNat 0)

/-- Bin edge `k` (for `k = 0 .. 5`) of `pd.qcut(values, q=5)`: the quantile
of the values at probability `k/5`. -/
def qcutEdge (values : List ℚ) (k : Nat) : ℚ :=
  quantile (sortVals values) ((k : ℚ) / 5)

/-- All six bin edges of `pd.qcut(values, q=5)`. -/
def qcutEdges (values : List ℚ) : List ℚ :=
  (List.range 6).map (fun k => qcutEdge values k)

/-- The 1-based bucket of `x` among the right-closed intervals delimited by
the inner edges `e_1 .. e_4` (the first interval is closed below, as with
`include_lowest`): one plus the number of inner edges strictly below `x`. -/
def qcutBucket (values : List ℚ) (x : ℚ) : Nat :=
  1 + (((List.range 4).map (fun j => qcutEdge values (j + 1))).filter
        (fun e => decide (e < x))).length

/-- `pd.qcut(values, q=5, labels=[1,2,3,4,5])` of notebook 03: defined only
when the six quantile edges are pairwise distinct (pandas raises on
duplicate bin edges; monotone edges are distinct when strictly increasing),
in which case every value receives its bucket as score. -/
def qcut5 (values : List ℚ) : Option (List Nat) :=
  if List.Chain' (fun a b => a < b) (qcutEdges values) then
    some (values.map (fun x => qcutBucket values x))
  else
    none

/-- The reverse-labelled variant `pd.qcut(values, q=5, labels=[5,4,3,2,1])`
used for the recency score of notebook 03: bucket `b` receives label
`6 - b`. -/
def qcut5Desc (values : List ℚ) : Option (List Nat) :=
  (qcut5 values).map (List.map (fun b => 6 - b))

lemma natCastDiv5 (a : Nat) :
    (a : ℚ) = 5 * ((a / 5 : ℕ) : ℚ) + ((a % 5 : ℕ) : ℚ) := by
  exact_mod_cast congrArg (fun x : ℕ => (x : ℚ)) (Nat.div_add_mod a 5).symm

lemma ratFloorDiv5 (a : Nat) : ⌊((a : ℚ)) / 5⌋ = ((a / 5 : ℕ) : ℤ) := by
  have hrlt : a % 5 < 5 := Nat.mod_lt _ (by norm_num)
  have hr0 : (0 : ℚ) ≤ ((a % 5 : ℕ) : ℚ) := by positivity
  have hr5 : ((a % 5 : ℕ) : ℚ) < 5 := by exact_mod_cast hrlt
  rw [Int.floor_eq_iff]
  rw [Int.cast_natCast]
  constructor
  · rw [natCastDiv5 a]
    linarith
  · rw [natCastDiv5 a]
    linarith

lemma ratCeilDiv5 (a : Nat) : ⌈((a : ℚ)) / 5⌉ = (((a + 4) / 5 : ℕ) : ℤ) := by
  have hrlt : a % 5 < 5 := Nat.mod_lt _ (by norm_num)
  rcases Nat.eq_zero_or_pos (a % 5) with hr | hr
  · have hdiv : (a + 4) / 5 = a / 5 := by omega
    have hq : (a : ℚ) / 5 = ((a / 5 : ℕ) : ℚ) := by
      rw [natCastDiv5 a, hr]
      push_cast
      ring
    rw [hdiv, hq]
    exact Int.ceil_natCast (a / 5)
  · have hdiv : (a + 4) / 5 = a / 5 + 1 := by omega
    have hr0 : (1 : ℚ) ≤ ((a % 5 : ℕ) : ℚ) := by exact_mod_cast hr
    have hr5 : ((a % 5 : ℕ) : ℚ) < 5 := by exact_mod_cast hrlt
    rw [hdiv, Int.ceil_eq_iff]
    rw [Int.cast_natCast, Nat.cast_add, Nat.cast_one]
    constructor
    · rw [natCastDiv5 a]
      linarith
    · rw [natCastDiv5 a]
      linarith

lemma ratFracDiv5 (a : Nat) :
    (a : ℚ) / 5 - ((a / 5 : ℕ) : ℚ) = ((a % 5 : ℕ) : ℚ) / 5 := by
  rw [natCastDiv5 a]
  ring

lemma quantile_eval (s : List ℚ) (k : Nat) (h1 : 1 ≤ s.length) :
    quantile s ((k : ℚ) / 5)
      = s.getD (k * (s.length - 1) / 5) 0
        + (((k * (s.length - 1)) % 5 : ℕ) : ℚ) / 5
          * (s.getD ((k * (s.length - 1) + 4) / 5) 0
              - s.getD (k * (s.length - 1) / 5) 0) := by
  have hN : ((s.length : ℚ) - 1) = ((s.length - 1 : ℕ) : ℚ) := by
    rw [Nat.cast_sub h1]
    push_cast
    ring
  have hh : (k : ℚ) / 5 * ((s.length : ℚ) - 1) = ((k * (s.length - 1) : ℕ) : ℚ) / 5 := by
    rw [hN]
    push_cast
    ring
  rw [quantile, hh, ratFloorDiv5, ratCeilDiv5, Int.toNat_natCast, Int.toNat_natCast,
    Int.cast_natCast, ratFracDiv5]

lemma sorted_getD_lt (s : List ℚ) (hs : List.Sorted (fun a b : ℚ => a < b) s)
    (i j : Nat) (hij : i < j) (hj : j < s.length) : s.getD i 0 < s.getD j 0 := by
  have hi : i < s.length := lt_trans hij hj
  rw [List.getD_eq_getElem _ _ hi, List.getD_eq_getElem _ _ hj]
  have h2 : s.get ⟨i, hi⟩ < s.get ⟨j, hj⟩ :=
    List.Sorted.rel_get_of_lt hs (show (⟨i, hi⟩ : Fin s.length) < ⟨j, hj⟩ from hij)
  simpa using h2

lemma sorted_getD_le (s : List ℚ) (hs : List.Sorted (fun a b : ℚ => a < b) s)
    (i j : Nat) (hij : i ≤ j) (hj : j < s.length) : s.getD i 0 ≤ s.getD j 0 := by
  rcases Nat.lt_or_ge i j with h2 | h2
  · exact le_of_lt (sorted_getD_lt s hs i j h2 hj)
  · have h3 : i = j := le_antisymm hij h2
    rw [h3]

lemma interp_bounds (s : List ℚ) (hs : List.Sorted (fun a b : ℚ => a < b) s)
    (lo hi2 r : Nat) (hr5 : r < 5)
    (hz : r = 0 → hi2 = lo) (hp : 0 < r → hi2 = lo + 1) (hhi : hi2 < s.length) :
    s.getD lo 0 ≤ s.getD lo 0 + ((r : ℚ)) / 5 * (s.getD hi2 0 - s.getD lo 0) ∧
    (∀ j, lo < j → j < s.length →
      s.getD lo 0 + ((r : ℚ)) / 5 * (s.getD hi2 0 - s.getD lo 0) < s.getD j 0) := by
  rcases Nat.eq_zero_or_pos r with h0 | h0
  · have he : hi2 = lo := hz h0
    rw [he, h0]
    constructor
    · simp
    · intro j hj hjn
      have h2 := sorted_getD_lt s hs lo j hj hjn
      push_cast
      linarith
  · have he : hi2 = lo + 1 := hp h0
    have hlon : lo + 1 < s.length := by omega
    have hlt : s.getD lo 0 < s.getD (lo + 1) 0 :=
      sorted_getD_lt s hs lo (lo + 1) (by omega) hlon
    have hfr0 : (0 : ℚ) < ((r : ℚ)) / 5 :=
      div_pos (by exact_mod_cast h0) (by norm_num)
    have hfr1 : ((r : ℚ)) / 5 < 1 := by
      have h5 : (r : ℚ) < 5 := by exact_mod_cast hr5
      linarith
    constructor
    · rw [he]
      nlinarith
    · intro j hj hjn
      have h2 : s.getD lo 0 + ((r : ℚ)) / 5 * (s.getD (lo + 1) 0 - s.getD lo 0)
          < s.getD (lo + 1) 0 := by nlinarith
      rw [he]
      rcases Nat.lt_or_ge j (lo + 1) with h3 | h3
      · omega
      · rcases Nat.eq_or_lt_of_le h3 with h4 | h4
        · rw [← h4]
          exact h2
        · exact lt_trans h2 (sorted_getD_lt s hs (lo + 1) j h4 hjn)

lemma edge_mem_le (s : List ℚ) (hs : List.Sorted (fun a b : ℚ => a < b) s)
    (hn : 2 ≤ s.length) (k : Nat) (hk : k ≤ 5) (i : Nat) (hi : i < s.length) :
    (s.getD i 0 ≤ quantile s ((k : ℚ) / 5) ↔ i ≤ k * (s.length - 1) / 5) := by
  have h1 : 1 ≤ s.length := by omega
  have ha : k * (s.length - 1) ≤ 5 * (s.length - 1) :=
    Nat.mul_le_mul_right (s.length - 1) hk
  have hhi_lt : (k * (s.length - 1) + 4) / 5 < s.length := by omega
  have hmod : k * (s.length - 1) % 5 < 5 := Nat.mod_lt _ (by norm_num)
  have hb := interp_bounds s hs (k * (s.length - 1) / 5)
    ((k * (s.length - 1) + 4) / 5) (k * (s.length - 1) % 5) hmod
    (by omega) (by omega) hhi_lt
  rw [quantile_eval s k h1]
  constructor
  · intro hle
    by_contra hgt
    have h2 : k * (s.length - 1) / 5 < i := by omega
    have h3 := hb.2 i h2 hi
    linarith
  · intro hle
    have h2 : s.getD i 0 ≤ s.getD (k * (s.length - 1) / 5) 0 :=
      sorted_getD_le s hs i (k * (s.length - 1) / 5) hle (by omega)
    linarith [hb.1]

lemma edge_strict_mono (s : List ℚ) (hs : List.Sorted (fun a b : ℚ => a < b) s)
    (hn : 2 ≤ s.length) (k : Nat) (hk : k < 5) :
    quantile s ((k : ℚ) / 5) < quantile s (((k + 1 : ℕ) : ℚ) / 5) := by
  have h1 : 1 ≤ s.length := by omega
  have hab : (k + 1) * (s.length - 1) = k * (s.length - 1) + (s.length - 1) := by ring
  have hB : (k + 1) * (s.length - 1) ≤ 5 * (s.length - 1) :=
    Nat.mul_le_mul_right (s.length - 1) (by omega)
  have hmodA : k * (s.length - 1) % 5 < 5 := Nat.mod_lt _ (by norm_num)
  have hmodB : (k + 1) * (s.length - 1) % 5 < 5 := Nat.mod_lt _ (by norm_num)
  have hhiA_lt : (k * (s.length - 1) + 4) / 5 < s.length := by omega
  have hhiB_lt : ((k + 1) * (s.length - 1) + 4) / 5 < s.length := by omega
  have hbA := interp_bounds s hs (k * (s.length - 1) / 5) ((k * (s.length - 1) + 4) / 5)
    (k * (s.length - 1) % 5) hmodA (by omega) (by omega) hhiA_lt
  have hbB := interp_bounds s hs ((k + 1) * (s.length - 1) / 5)
    (((k + 1) * (s.length - 1) + 4) / 5) ((k + 1) * (s.length - 1) % 5) hmodB
    (by omega) (by omega) hhiB_lt
  rw [quantile_eval s k h1, quantile_eval s (k + 1) h1]
  rcases Nat.lt_or_ge (k * (s.length - 1) / 5) ((k + 1) * (s.length - 1) / 5) with
    hcase | hcase
  · have h2 := hbA.2 ((k + 1) * (s.length - 1) / 5) hcase (by omega)
    linarith [hbB.1]
  · have heq : k * (s.length - 1) / 5 = (k + 1) * (s.length - 1) / 5 := by omega
    have hr2 : (k + 1) * (s.length - 1) % 5 = k * (s.length - 1) % 5 + (s.length - 1) := by
      omega
    have hrpos : 0 < (k + 1) * (s.length - 1) % 5 := by omega
    have hhiB : ((k + 1) * (s.length - 1) + 4) / 5 = (k + 1) * (s.length - 1) / 5 + 1 := by
      omega
    have hd : s.getD (k * (s.length - 1) / 5) 0
        < s.getD (k * (s.length - 1) / 5 + 1) 0 :=
      sorted_getD_lt s hs _ _ (by omega) (by omega)
    have hrB1 : (1 : ℚ) ≤ (((k + 1) * (s.length - 1) % 5 : ℕ) : ℚ) := by
      exact_mod_cast hrpos
    rw [hhiB, ← heq]
    rcases Nat.eq_zero_or_pos (k * (s.length - 1) % 5) with hr0 | hr0
    · have hhiA_eq : (k * (s.length - 1) + 4) / 5 = k * (s.length - 1) / 5 := by omega
      rw [hhiA_eq, hr0]
      push_cast
      nlinarith [hd]
    · have hhiA_eq : (k * (s.length - 1) + 4) / 5 = k * (s.length - 1) / 5 + 1 := by omega
      have hrAB : ((k * (s.length - 1) % 5 : ℕ) : ℚ)
          < (((k + 1) * (s.length - 1) % 5 : ℕ) : ℚ) := by
        have h3 : k * (s.length - 1) % 5 < (k + 1) * (s.length - 1) % 5 := by omega
        exact_mod_cast h3
      rw [hhiA_eq]
      nlinarith [hd]

lemma countP_window (p : ℚ → Bool) :
    ∀ (s : List ℚ) (a m : Nat), a ≤ m → m ≤ s.length →
      (∀ i, i < s.length → (p (s.getD i 0) = true ↔ (a ≤ i ∧ i < m))) →
      s.countP p = m - a := by
  intro s
  induction s with
  | nil =>
    intro a m ham hm hchar
    have hm0 : m = 0 := by simpa using hm
    have ha0 : a = 0 := by omega
    rw [hm0, ha0]
    simp
  | cons x t ih =>
    intro a m ham hm hchar
    cases m with
    | zero =>
      have ha0 : a = 0 := by omega
      have hpx : p x = false := by
        have h0 := hchar 0 (by simp)
        rw [List.getD_cons_zero] at h0
        rcases hb : p x
        · rfl
        · exact absurd (h0.mp hb) (by omega)
      have ht : t.countP p = 0 := by
        refine ih 0 0 (le_refl 0) (by omega) ?_
        intro i hi
        have h2 := hchar (i + 1) (by simpa using Nat.succ_lt_succ hi)
        rw [List.getD_cons_succ] at h2
        constructor
        · intro hp
          exact absurd (h2.mp hp) (by omega)
        · intro hcon
          omega
      rw [List.countP_cons, ht, hpx]
      simp
    | succ m2 =>
      have hm2 : m2 ≤ t.length := by simpa using hm
      cases a with
      | zero =>
        have hpx : p x = true := by
          have h0 := hchar 0 (by simp)
          rw [List.getD_cons_zero] at h0
          exact h0.mpr (by omega)
        have ht : t.countP p = m2 := by
          have h3 := ih 0 m2 (by omega) hm2 ?_
          · simpa using h3
          · intro i hi
            have h2 := hchar (i + 1) (by simpa using Nat.succ_lt_succ hi)
            rw [List.getD_cons_succ] at h2
            constructor
            · intro hp
              have := h2.mp hp
              omega
            · intro hcon
              exact h2.mpr (by omega)
        rw [List.countP_cons, ht, hpx]
        simp
      | succ a2 =>
        have hpx : p x = false := by
          have h0 := hchar 0 (by simp)
          rw [List.getD_cons_zero] at h0
          rcases hb : p x
          · rfl
          · exact absurd (h0.mp hb) (by omega)
        have ht : t.countP p = m2 - a2 := by
          refine ih a2 m2 (by omega) hm2 ?_
          intro i hi
          have h2 := hchar (i + 1) (by simpa using Nat.succ_lt_succ hi)
          rw [List.getD_cons_succ] at h2
          constructor
          · intro hp
            have := h2.mp hp
            omega
          · intro hcon
            exact h2.mpr (by omega)
        rw [List.countP_cons, ht, hpx]
        simp

lemma sortVals_facts (v : List ℚ) (hnd : v.Nodup) :
    (sortVals v).Perm v ∧ (sortVals v).length = v.length ∧
    List.Sorted (fun a b : ℚ => a < b) (sortVals v) := by
  have hperm : (sortVals v).Perm v := List.perm_insertionSort _ v
  refine ⟨hperm, hperm.length_eq, ?_⟩
  have hsort : List.Sorted (fun a b : ℚ => a ≤ b) (sortVals v) :=
    List.sorted_insertionSort _ v
  have hnd2 : (sortVals v).Nodup := hperm.nodup_iff.mpr hnd
  exact hsort.lt_of_le hnd2

lemma qcutEdge_lt (v : List ℚ) (hnd : v.Nodup) (hn2 : 2 ≤ v.length)
    (k : Nat) (hk : k < 5) : qcutEdge v k < qcutEdge v (k + 1) := by
  obtain ⟨hperm, hlen, hsort⟩ := sortVals_facts v hnd
  have hns : 2 ≤ (sortVals v).length := by omega
  exact edge_strict_mono (sortVals v) hsort hns k hk

lemma qcutEdge_mem_le (v : List ℚ) (hnd : v.Nodup) (hn2 : 2 ≤ v.length)
    (k : Nat) (hk : k ≤ 5) (i : Nat) (hi : i < v.length) :
    ((sortVals v).getD i 0 ≤ qcutEdge v k ↔ i ≤ k * (v.length - 1) / 5) := by
  obtain ⟨hperm, hlen, hsort⟩ := sortVals_facts v hnd
  have h2 := edge_mem_le (sortVals v) hsort (by omega) k hk i (by omega)
  rw [hlen] at h2
  exact h2

lemma qcutChain (v : List ℚ) (hnd : v.Nodup) (hn2 : 2 ≤ v.length) :
    List.Chain' (fun a b : ℚ => a < b) (qcutEdges v) := by
  have h01 : qcutEdge v 0 < qcutEdge v 1 := by
    simpa using qcutEdge_lt v hnd hn2 0 (by norm_num)
  have h12 : qcutEdge v 1 < qcutEdge v 2 := by
    simpa using qcutEdge_lt v hnd hn2 1 (by norm_num)
  have h23 : qcutEdge v 2 < qcutEdge v 3 := by
    simpa using qcutEdge_lt v hnd hn2 2 (by norm_num)
  have h34 : qcutEdge v 3 < qcutEdge v 4 := by
    simpa using qcutEdge_lt v hnd hn2 3 (by norm_num)
  have h45 : qcutEdge v 4 < qcutEdge v 5 := by
    simpa using qcutEdge_lt v hnd hn2 4 (by norm_num)
  rw [qcutEdges]
  norm_num [List.range_succ, List.chain'_cons]
  exact ⟨h01, h12, h23, h34, h45⟩

lemma qcutBucket_eq (v : List ℚ) (x : ℚ) :
    qcutBucket v x
      = 1 + ((if qcutEdge v 1 < x then 1 else 0) + (if qcutEdge v 2 < x then 1 else 0)
          + (if qcutEdge v 3 < x then 1 else 0) + (if qcutEdge v 4 < x then 1 else 0)) := by
  rw [qcutBucket]
  norm_num [List.range_succ, List.filter_cons]
  split_ifs <;> simp

lemma qcutBucket_sorted_char (v : List ℚ) (hnd : v.Nodup) (hn2 : 2 ≤ v.length)
    (i : Nat) (hi : i < v.length) :
    qcutBucket v ((sortVals v).getD i 0)
      = 1 + ((if 1 * (v.length - 1) / 5 < i then 1 else 0)
           + (if 2 * (v.length - 1) / 5 < i then 1 else 0)
           + (if 3 * (v.length - 1) / 5 < i then 1 else 0)
           + (if 4 * (v.length - 1) / 5 < i then 1 else 0)) := by
  have ckey : ∀ k, 1 ≤ k → k ≤ 4 →
      (qcutEdge v k < (sortVals v).getD i 0 ↔ k * (v.length - 1) / 5 < i) := by
    intro k hk1 hk4
    constructor
    · intro h2
      by_contra h3
      have h5 := (qcutEdge_mem_le v hnd hn2 k (by omega) i hi).mpr (by omega)
      linarith
    · intro h2
      by_contra h3
      have h5 := (qcutEdge_mem_le v hnd hn2 k (by omega) i hi).mp (le_of_not_lt h3)
      omega
  rw [qcutBucket_eq]
  rw [if_congr (ckey 1 (by norm_num) (by norm_num)) rfl rfl,
    if_congr (ckey 2 (by norm_num) (by norm_num)) rfl rfl,
    if_congr (ckey 3 (by norm_num) (by norm_num)) rfl rfl,
    if_congr (ckey 4 (by norm_num) (by norm_num)) rfl rfl]

lemma qcut_count_window (v : List ℚ) (b A M : Nat)
    (hAM : A ≤ M) (hM : M ≤ v.length)
    (hchar : ∀ i, i < v.length →
      (qcutBucket v ((sortVals v).getD i 0) = b ↔ (A ≤ i ∧ i < M))) :
    (v.map (fun x => qcutBucket v x)).count b = M - A := by
  have hperm : (sortVals v).Perm v := List.perm_insertionSort _ v
  have hlen : (sortVals v).length = v.length := hperm.length_eq
  have hstep : (v.map (fun x => qcutBucket v x)).count b
      = v.countP (fun x => qcutBucket v x == b) := by
    simp [List.count, List.countP_map]
    rfl
  rw [hstep, ← hperm.countP_eq]
  refine countP_window _ (sortVals v) A M hAM (by omega) ?_
  intro i hi
  have h2 := hchar i (by omega)
  constructor
  · intro hp
    exact h2.mp (by simpa using hp)
  · intro hc
    simpa using h2.mpr hc

/-- C6 counterexample: on the tied value multiset
`[1, 2, 2, 2, 3, 4, 5, 6, 7, 8, 9, 10]` the qcut scoring succeeds, yet the
first bucket holds 4 customers and the second only 1, so the bucket sizes
differ by 3 — more than 1. -/
theorem C6_quantile_buckets_counterexample :
    qcut5 [(1 : ℚ), 2, 2, 2, 3, 4, 5, 6, 7, 8, 9, 10]
      = some [1, 1, 1, 1, 2, 3, 3, 4, 4, 5, 5, 5] ∧
    ([1, 1, 1, 1, 2, 3, 3, 4, 4, 5, 5, 5] : List Nat).count 1 = 4 ∧
    ([1, 1, 1, 1, 2, 3, 3, 4, 4, 5, 5, 5] : List Nat).count 2 = 1 ∧
    ¬ ([1, 1, 1, 1, 2, 3, 3, 4, 4, 5, 5, 5] : List Nat).count 1
        ≤ ([1, 1, 1, 1, 2, 3, 3, 4, 4, 5, 5, 5] : List Nat).count 2 + 1 := by
  have hsorted : sortVals [(1 : ℚ), 2, 2, 2, 3, 4, 5, 6, 7, 8, 9, 10]
      = [(1 : ℚ), 2, 2, 2, 3, 4, 5, 6, 7, 8, 9, 10] := by
    norm_num [sortVals, List.insertionSort, List.orderedInsert]
  have he1 : qcutEdge [(1 : ℚ), 2, 2, 2, 3, 4, 5, 6, 7, 8, 9, 10] 1 = 2 := by
    rw [qcutEdge, hsorted, quantile_eval _ 1 (by norm_num)]
    norm_num [List.getD]
  have he2 : qcutEdge [(1 : ℚ), 2, 2, 2, 3, 4, 5, 6, 7, 8, 9, 10] 2 = 17 / 5 := by
    rw [qcutEdge, hsorted, quantile_eval _ 2 (by norm_num)]
    norm_num [List.getD]
  have he3 : qcutEdge [(1 : ℚ), 2, 2, 2, 3, 4, 5, 6, 7, 8, 9, 10] 3 = 28 / 5 := by
    rw [qcutEdge, hsorted, quantile_eval _ 3 (by norm_num)]
    norm_num [List.getD]
  have he4 : qcutEdge [(1 : ℚ), 2, 2, 2, 3, 4, 5, 6, 7, 8, 9, 10] 4 = 39 / 5 := by
    rw [qcutEdge, hsorted, quantile_eval _ 4 (by norm_num)]
    norm_num [List.getD]
  have he0 : qcutEdge [(1 : ℚ), 2, 2, 2, 3, 4, 5, 6, 7, 8, 9, 10] 0 = 1 := by
    rw [qcutEdge, hsorted, quantile_eval _ 0 (by norm_num)]
    norm_num [List.getD]
  have he5 : qcutEdge [(1 : ℚ), 2, 2, 2, 3, 4, 5, 6, 7, 8, 9, 10] 5 = 10 := by
    rw [qcutEdge, hsorted, quantile_eval _ 5 (by norm_num)]
    norm_num [List.getD]
  refine ⟨?_, by decide, by decide, by decide⟩
  have hchain : List.Chain' (fun a b : ℚ => a < b)
      (qcutEdges [(1 : ℚ), 2, 2, 2, 3, 4, 5, 6, 7, 8, 9, 10]) := by
    rw [qcutEdges]
    norm_num [List.range_succ, List.chain'_cons, he0, he1, he2, he3, he4, he5]
  rw [qcut5, if_pos hchain]
  have hbucket : ∀ x : ℚ,
      qcutBucket [(1 : ℚ), 2, 2, 2, 3, 4, 5, 6, 7, 8, 9, 10] x
        = 1 + ((if (2 : ℚ) < x then 1 else 0) + (if (17 / 5 : ℚ) < x then 1 else 0)
            + (if (28 / 5 : ℚ) < x then 1 else 0) + (if (39 / 5 : ℚ) < x then 1 else 0)) := by
    intro x
    rw [qcutBucket_eq, he1, he2, he3, he4]
  norm_num [hbucket]

/-- C6 (amended): when at least two customers have pairwise distinct metric
values, the quantile scoring succeeds and assigns every customer a score in
1..5, the five buckets partition the customers, and the bucket sizes differ
by at most 1; with duplicated values the scoring may fail outright
(duplicate bin edges) or, as the counterexample shows, produce buckets whose
sizes differ by more than 1. -/
theorem C6_quantile_buckets_distinct (v : List ℚ) (hnd : v.Nodup)
    (hn2 : 2 ≤ v.length) :
    ∃ scores, qcut5 v = some scores ∧ scores.length = v.length ∧
      (∀ b ∈ scores, 1 ≤ b ∧ b ≤ 5) ∧
      scores.count 1 + scores.count 2 + scores.count 3 + scores.count 4
        + scores.count 5 = v.length ∧
      (∀ b1 b2, 1 ≤ b1 → b1 ≤ 5 → 1 ≤ b2 → b2 ≤ 5 →
        scores.count b1 ≤ scores.count b2 + 1) := by
  have hc1 : (v.map (fun x => qcutBucket v x)).count 1
      = (1 * (v.length - 1) / 5 + 1) - 0 := by
    refine qcut_count_window v 1 0 (1 * (v.length - 1) / 5 + 1) (by omega) (by omega) ?_
    intro i hi
    rw [qcutBucket_sorted_char v hnd hn2 i hi]
    split_ifs <;> omega
  have hc2 : (v.map (fun x => qcutBucket v x)).count 2
      = (2 * (v.length - 1) / 5 + 1) - (1 * (v.length - 1) / 5 + 1) := by
    refine qcut_count_window v 2 (1 * (v.length - 1) / 5 + 1)
      (2 * (v.length - 1) / 5 + 1) (by omega) (by omega) ?_
    intro i hi
    rw [qcutBucket_sorted_char v hnd hn2 i hi]
    split_ifs <;> omega
  have hc3 : (v.map (fun x => qcutBucket v x)).count 3
      = (3 * (v.length - 1) / 5 + 1) - (2 * (v.length - 1) / 5 + 1) := by
    refine qcut_count_window v 3 (2 * (v.length - 1) / 5 + 1)
      (3 * (v.length - 1) / 5 + 1) (by omega) (by omega) ?_
    intro i hi
    rw [qcutBucket_sorted_char v hnd hn2 i hi]
    split_ifs <;> omega
  have hc4 : (v.map (fun x => qcutBucket v x)).count 4
      = (4 * (v.length - 1) / 5 + 1) - (3 * (v.length - 1) / 5 + 1) := by
    refine qcut_count_window v 4 (3 * (v.length - 1) / 5 + 1)
      (4 * (v.length - 1) / 5 + 1) (by omega) (by omega) ?_
    intro i hi
    rw [qcutBucket_sorted_char v hnd hn2 i hi]
    split_ifs <;> omega
  have hc5 : (v.map (fun x => qcutBucket v x)).count 5
      = v.length - (4 * (v.length - 1) / 5 + 1) := by
    refine qcut_count_window v 5 (4 * (v.length - 1) / 5 + 1) v.length
      (by omega) (by omega) ?_
    intro i hi
    rw [qcutBucket_sorted_char v hnd hn2 i hi]
    split_ifs <;> omega
  refine ⟨v.map (fun x => qcutBucket v x), ?_, by simp, ?_, ?_, ?_⟩
  · rw [qcut5, if_pos (qcutChain v hnd hn2)]
  · intro b hb
    rcases List.mem_map.mp hb with ⟨x, hx, hxb⟩
    rw [← hxb, qcutBucket]
    have h2 : (((List.range 4).map (fun j => qcutEdge v (j + 1))).filter
        (fun e => decide (e < x))).length ≤ 4 := by
      calc (((List.range 4).map (fun j => qcutEdge v (j + 1))).filter
            (fun e => decide (e < x))).length
          ≤ ((List.range 4).map (fun j => qcutEdge v (j + 1))).length :=
            List.length_filter_le _ _
        _ = 4 := by simp
    omega
  · rw [hc1, hc2, hc3, hc4, hc5]
    omega
  · intro b1 b2 hb1 hb5 hb2 hb6
    interval_cases b1 <;> interval_cases b2 <;>
      simp only [hc1, hc2, hc3, hc4, hc5] <;> omega

lemma qcutBucket_mono (v : List ℚ) (x y : ℚ) (hxy : x ≤ y) :
    qcutBucket v x ≤ qcutBucket v y := by
  rw [qcutBucket, qcutBucket, ← List.countP_eq_length_filter,
    ← List.countP_eq_length_filter]
  refine Nat.add_le_add_left ?_ 1
  refine List.countP_mono_left ?_
  intro e hemem hp
  have h2 : e < x := by simpa using hp
  simpa using lt_of_lt_of_le h2 hxy

/-- Witness for C6's amended statement at the six distinct values
`[10, 20, 30, 40, 50, 60]`. -/
theorem C6_quantile_buckets_distinct_witness :
    ([(10 : ℚ), 20, 30, 40, 50, 60] : List ℚ).Nodup ∧
    2 ≤ ([(10 : ℚ), 20, 30, 40, 50, 60] : List ℚ).length ∧
    (∃ scores, qcut5 [(10 : ℚ), 20, 30, 40, 50, 60] = some scores ∧
      scores.length = ([(10 : ℚ), 20, 30, 40, 50, 60] : List ℚ).length ∧
      (∀ b ∈ scores, 1 ≤ b ∧ b ≤ 5) ∧
      scores.count 1 + scores.count 2 + scores.count 3 + scores.count 4
        + scores.count 5 = ([(10 : ℚ), 20, 30, 40, 50, 60] : List ℚ).length ∧
      (∀ b1 b2, 1 ≤ b1 → b1 ≤ 5 → 1 ≤ b2 → b2 ≤ 5 →
        scores.count b1 ≤ scores.count b2 + 1)) :=
  ⟨by norm_num, by norm_num,
    C6_quantile_buckets_distinct [(10 : ℚ), 20, 30, 40, 50, 60]
      (by norm_num) (by norm_num)⟩

/-- The transactions of customer `c` (`df.groupby('customer_id')`). -/
def customerTx (txs : List Transaction) (c : Nat) : List Transaction :=
  txs.filter (fun t => t.customer_id == c)

/-- The order dates of customer `c`. -/
def customerDates (txs : List Transaction) (c : Nat) : List Nat :=
  (customerTx txs c).map (fun t => t.order_date)

/-- The anchor date of notebook 03: `current_date = df['order_date'].max()`,
the dataset's latest observed order, not wall-clock time. -/
def currentDate (txs : List Transaction) : Nat :=
  maxD (txDates txs)

/-- Recency of customer `c`: `(current_date - x.max()).days`, the day count
from the customer's latest order to the dataset anchor. -/
def recency (txs : List Transaction) (c : Nat) : Nat :=
  currentDate txs - maxD (customerDates txs c)

/-- Frequency of customer `c`: the order count (`'order_id': 'count'`). -/
def frequency (txs : List Transaction) (c : Nat) : Nat :=
  (customerTx txs c).length

/-- Monetary value of customer `c`: total spend (`'price': 'sum'`). -/
def monetary (txs : List Transaction) (c : Nat) : ℚ :=
  ((customerTx txs c).map (fun t => t.price)).sum

lemma foldl_max_is : ∀ (ds : List Nat) (a : Nat),
    ds.foldl max a = a ∨ ds.foldl max a ∈ ds := by
  intro ds
  induction ds with
  | nil => intro a; left; rfl
  | cons d ds ih =>
    intro a
    rcases ih (max a d) with h2 | h2
    · rcases Nat.le_total a d with h3 | h3
      · right
        rw [List.foldl_cons, h2, max_eq_right h3]
        exact List.mem_cons_self d ds
      · left
        rw [List.foldl_cons, h2, max_eq_left h3]
    · right
      exact List.mem_cons_of_mem d h2

lemma maxD_mem (l : List Nat) (hne : l ≠ []) : maxD l ∈ l := by
  cases l with
  | nil => exact absurd rfl hne
  | cons d ds =>
    rcases foldl_max_is ds d with h2 | h2
    · rw [maxD, h2]
      exact List.mem_cons_self d ds
    · rw [maxD]
      exact List.mem_cons_of_mem d h2

/-- C7: Recency is anchored at the dataset's maximum order date: it equals
that anchor minus the customer's latest order date (a maximum of the
customer's own dates), not wall-clock time; and the reverse-labelled recency
scoring is antitone in the metric value while the ascending scoring used for
frequency and monetary is monotone. -/
theorem C7_rfm_recency_scoring (txs : List Transaction) (c : Nat)
    (hc : customerTx txs c ≠ [])
    (rvals : List ℚ) (rscores ascScores : List Nat)
    (hr : qcut5Desc rvals = some rscores) (ha : qcut5 rvals = some ascScores)
    (i j : Nat) (hi : i < rvals.length) (hj : j < rvals.length)
    (hij : rvals.getD i 0 ≤ rvals.getD j 0) :
    (∃ d, d ∈ customerDates txs c ∧ (∀ e, e ∈ customerDates txs c → e ≤ d) ∧
      recency txs c = currentDate txs - d ∧ currentDate txs = maxD (txDates txs)) ∧
    rscores.getD j 0 ≤ rscores.getD i 0 ∧
    ascScores.getD i 0 ≤ ascScores.getD j 0 := by
  have hcd : customerDates txs c ≠ [] := by
    rw [customerDates]
    intro hmap
    exact hc (List.map_eq_nil_iff.mp hmap)
  have hasc : ascScores = rvals.map (fun x => qcutBucket rvals x) := by
    rw [qcut5] at ha
    by_cases hch : List.Chain' (fun a b : ℚ => a < b) (qcutEdges rvals)
    · rw [if_pos hch] at ha
      exact (Option.some.inj ha).symm
    · rw [if_neg hch] at ha
      cases ha
  have hdesc : rscores = ascScores.map (fun b => 6 - b) := by
    rw [qcut5Desc, ha] at hr
    exact (Option.some.inj hr).symm
  have hlen_asc : ascScores.length = rvals.length := by
    rw [hasc]
    simp
  have hbi : ascScores.getD i 0 = qcutBucket rvals (rvals.getD i 0) := by
    rw [hasc, List.getD_eq_getElem _ _ (by simpa using hi),
      List.getElem_map, List.getD_eq_getElem _ _ hi]
  have hbj : ascScores.getD j 0 = qcutBucket rvals (rvals.getD j 0) := by
    rw [hasc, List.getD_eq_getElem _ _ (by simpa using hj),
      List.getElem_map, List.getD_eq_getElem _ _ hj]
  have hri : rscores.getD i 0 = 6 - ascScores.getD i 0 := by
    rw [hdesc, List.getD_eq_getElem _ _ (by simpa using hlen_asc ▸ hi),
      List.getElem_map, List.getD_eq_getElem _ _ (by simpa using hlen_asc ▸ hi)]
  have hrj : rscores.getD j 0 = 6 - ascScores.getD j 0 := by
    rw [hdesc, List.getD_eq_getElem _ _ (by simpa using hlen_asc ▸ hj),
      List.getElem_map, List.getD_eq_getElem _ _ (by simpa using hlen_asc ▸ hj)]
  have hmono : ascScores.getD i 0 ≤ ascScores.getD j 0 := by
    rw [hbi, hbj]
    exact qcutBucket_mono rvals _ _ hij
  refine ⟨?_, ?_, hmono⟩
  · refine ⟨maxD (customerDates txs c), maxD_mem _ hcd, ?_, rfl, rfl⟩
    intro e he
    exact mem_le_maxD _ _ he
  · rw [hri, hrj]
    omega

lemma qcut5_pair_eval : qcut5 [(10 : ℚ), 20] = some [1, 5] := by
  have hsorted : sortVals [(10 : ℚ), 20] = [(10 : ℚ), 20] := by
    norm_num [sortVals, List.insertionSort, List.orderedInsert]
  have he0 : qcutEdge [(10 : ℚ), 20] 0 = 10 := by
    rw [qcutEdge, hsorted, quantile_eval _ 0 (by norm_num)]
    norm_num [List.getD]
  have he1 : qcutEdge [(10 : ℚ), 20] 1 = 12 := by
    rw [qcutEdge, hsorted, quantile_eval _ 1 (by norm_num)]
    norm_num [List.getD]
  have he2 : qcutEdge [(10 : ℚ), 20] 2 = 14 := by
    rw [qcutEdge, hsorted, quantile_eval _ 2 (by norm_num)]
    norm_num [List.getD]
  have he3 : qcutEdge [(10 : ℚ), 20] 3 = 16 := by
    rw [qcutEdge, hsorted, quantile_eval _ 3 (by norm_num)]
    norm_num [List.getD]
  have he4 : qcutEdge [(10 : ℚ), 20] 4 = 18 := by
    rw [qcutEdge, hsorted, quantile_eval _ 4 (by norm_num)]
    norm_num [List.getD]
  have he5 : qcutEdge [(10 : ℚ), 20] 5 = 20 := by
    rw [qcutEdge, hsorted, quantile_eval _ 5 (by norm_num)]
    norm_num [List.getD]
  have hchain : List.Chain' (fun a b : ℚ => a < b) (qcutEdges [(10 : ℚ), 20]) := by
    rw [qcutEdges]
    norm_num [List.range_succ, List.chain'_cons, he0, he1, he2, he3, he4, he5]
  rw [qcut5, if_pos hchain]
  have hbucket : ∀ x : ℚ,
      qcutBucket [(10 : ℚ), 20] x
        = 1 + ((if (12 : ℚ) < x then 1 else 0) + (if (14 : ℚ) < x then 1 else 0)
            + (if (16 : ℚ) < x then 1 else 0) + (if (18 : ℚ) < x then 1 else 0)) := by
    intro x
    rw [qcutBucket_eq, he1, he2, he3, he4]
  norm_num [hbucket]

/-- Witness for C7 at a one-transaction customer and the two-value metric
list `[10, 20]`, whose descending scores are `[5, 1]` and ascending scores
`[1, 5]`. -/
theorem C7_rfm_recency_scoring_witness :
    customerTx [(⟨0, 10, 7, 5, 1⟩ : Transaction)] 7 ≠ [] ∧
    qcut5Desc [(10 : ℚ), 20] = some [5, 1] ∧
    qcut5 [(10 : ℚ), 20] = some [1, 5] ∧
    ([(10 : ℚ), 20] : List ℚ).getD 0 0 ≤ ([(10 : ℚ), 20] : List ℚ).getD 1 0 ∧
    ((∃ d, d ∈ customerDates [(⟨0, 10, 7, 5, 1⟩ : Transaction)] 7 ∧
        (∀ e, e ∈ customerDates [(⟨0, 10, 7, 5, 1⟩ : Transaction)] 7 → e ≤ d) ∧
        recency [(⟨0, 10, 7, 5, 1⟩ : Transaction)] 7
          = currentDate [(⟨0, 10, 7, 5, 1⟩ : Transaction)] - d ∧
        currentDate [(⟨0, 10, 7, 5, 1⟩ : Transaction)]
          = maxD (txDates [(⟨0, 10, 7, 5, 1⟩ : Transaction)])) ∧
      ([5, 1] : List Nat).getD 1 0 ≤ ([5, 1] : List Nat).getD 0 0 ∧
      ([1, 5] : List Nat).getD 0 0 ≤ ([1, 5] : List Nat).getD 1 0) := by
  have hdesc : qcut5Desc [(10 : ℚ), 20] = some [5, 1] := by
    rw [qcut5Desc, qcut5_pair_eval]
    rfl
  have hle : ([(10 : ℚ), 20] : List ℚ).getD 0 0 ≤ ([(10 : ℚ), 20] : List ℚ).getD 1 0 := by
    norm_num [List.getD]
  exact ⟨by decide, hdesc, qcut5_pair_eval, hle,
    C7_rfm_recency_scoring [(⟨0, 10, 7, 5, 1⟩ : Transaction)] 7 (by decide)
      [(10 : ℚ), 20] [5, 1] [1, 5] hdesc qcut5_pair_eval 0 1
      (by norm_num) (by norm_num) hle⟩
